import Mathlib

/-!
Verification of the scene-graph / mesh-drawing layer of the repository
(`src/meshDrawer.js` and `src/unnamed/part_000`).

The embedding models:
* 4x4 float matrices as 4x4 rational matrices (`Mat`), with the external
  collaborator `MatrixMult` as genuine matrix multiplication;
* the external `TRS` collaborator as a black box exposing
  `getTransformationMatrix`;
* `SceneNode` as an inductive tree (mesh drawers are identified by a
  numeric id, `none` standing for a null `meshDrawer` field);
* `SceneNode.draw` denotationally, as the list of mesh-drawer invocations
  (`DrawEvent`s) it performs, in order.  `src/meshDrawer.js` recurses into
  the children first and then draws the node's own mesh; the variant in
  `src/unnamed/part_000` draws the own mesh first — both are embedded;
* `MeshDrawer` as its observable state (`numTriangles`, `isLightSource`)
  together with the trace of graphics-API calls (`GLCall`) each method
  issues, using the numeric values of the WebGL enumeration constants;
* the constructor-time parent registration of `SceneNode` as an operation
  on an arena (`World`) of node records, so that the mutation of the
  parent's `children` array is explicit.
-/

namespace CS405

/-- 4x4 matrices; the JS code's `Float32Array` matrices are modelled over `ℚ`. -/
abbrev Mat : Type := Matrix (Fin 4) (Fin 4) ℚ

/-- External collaborator `MatrixMult(A, B)`: 4x4 matrix multiplication. -/
def MatrixMult (a b : Mat) : Mat := a * b

/-- External collaborator type `TRS`; a black box exposing `getTransformationMatrix`. -/
structure TRS where
  matrix : Mat

/-- Accessor `trs.getTransformationMatrix()` of the `TRS` collaborator. -/
def TRS.getTransformationMatrix (t : TRS) : Mat := t.matrix

/-- Scene-graph node: `meshDrawer` (a mesh-drawer id, or `none` for the JS
`null`), the local transform object `trs`, and the `children` array. -/
inductive SceneNode : Type where
  | mk (meshDrawer : Option Nat) (trs : TRS) (children : List SceneNode)

/-- Field accessor for `this.meshDrawer`. -/
def SceneNode.meshDrawer : SceneNode → Option Nat
  | .mk md _ _ => md

/-- Field accessor for `this.trs`. -/
def SceneNode.trs : SceneNode → TRS
  | .mk _ t _ => t

/-- Field accessor for `this.children`. -/
def SceneNode.children : SceneNode → List SceneNode
  | .mk _ _ cs => cs

/-- One invocation of a mesh drawer's `draw`: the id of the mesh drawer and
the four matrices passed on the four channels. -/
structure DrawEvent where
  mesh : Nat
  mvp : Mat
  modelView : Mat
  normalMatrix : Mat
  modelMatrix : Mat

/-- Trace of the optional-chaining call `this.meshDrawer?.draw(...)`
(respectively the `if (this.meshDrawer) { ... }` guard of `part_000`):
one event when a mesh drawer is present, none otherwise. -/
def meshEvents (md : Option Nat) (mvp mv nm mm : Mat) : List DrawEvent :=
  match md with
  | some m => [⟨m, mvp, mv, nm, mm⟩]
  | none => []

/-- Embedding of `SceneNode.draw` from `src/meshDrawer.js` (lines 264-284):
compose each incoming matrix with the local transformation matrix on the
right, recurse into all children in order, then draw the own mesh if any.
The result is the ordered trace of mesh-drawer invocations. -/
def SceneNode.draw : SceneNode → Mat → Mat → Mat → Mat → List DrawEvent
  | .mk md trs cs, mvp, modelView, normalMatrix, modelMatrix =>
    let transformationMatrix := trs.getTransformationMatrix
    let transformedMvp := MatrixMult mvp transformationMatrix
    let transformedNormals := MatrixMult normalMatrix transformationMatrix
    let transformedModelView := MatrixMult modelView transformationMatrix
    let transformedModel := MatrixMult modelMatrix transformationMatrix
    (cs.attach.map (fun c =>
      SceneNode.draw c.1 transformedMvp transformedModelView transformedNormals
        transformedModel)).flatten
      ++ meshEvents md transformedMvp transformedModelView transformedNormals transformedModel
termination_by n => sizeOf n
decreasing_by
  have hm := List.sizeOf_lt_of_mem c.2
  simp only [SceneNode.mk.sizeOf_spec]
  omega

/-- Embedding of the variant `SceneNode.draw` from `src/unnamed/part_000`
(lines 37-56): same matrix composition, but the own mesh is rendered first
and the children are traversed afterwards. -/
def SceneNode.drawAlt : SceneNode → Mat → Mat → Mat → Mat → List DrawEvent
  | .mk md trs cs, mvpMatrix, modelViewMatrix, normalMatrix, modelMatrix =>
    let nodeTransform := trs.getTransformationMatrix
    let updatedMVP := MatrixMult mvpMatrix nodeTransform
    let updatedModelView := MatrixMult modelViewMatrix nodeTransform
    let updatedNormal := MatrixMult normalMatrix nodeTransform
    let updatedModel := MatrixMult modelMatrix nodeTransform
    meshEvents md updatedMVP updatedModelView updatedNormal updatedModel
      ++ (cs.attach.map (fun c =>
        SceneNode.drawAlt c.1 updatedMVP updatedModelView updatedNormal
          updatedModel)).flatten
termination_by n => sizeOf n
decreasing_by
  have hm := List.sizeOf_lt_of_mem c.2
  simp only [SceneNode.mk.sizeOf_spec]
  omega

/-- Number of nodes of the tree that carry a mesh drawer. -/
def meshCount : SceneNode → Nat
  | .mk md _ cs =>
    ((cs.attach.map (fun c => meshCount c.1)).sum) + (if md.isSome then 1 else 0)
termination_by n => sizeOf n
decreasing_by
  have hm := List.sizeOf_lt_of_mem c.2
  simp only [SceneNode.mk.sizeOf_spec]
  omega

/-- Node reached from `n` by following the given list of child indices. -/
def subtreeAt : SceneNode → List Nat → Option SceneNode
  | n, [] => some n
  | .mk _ _ cs, i :: p =>
    match cs[i]? with
    | some c => subtreeAt c p
    | none => none

/-- Local transformation matrices of the nodes met along a path, from the
root down, the root's own matrix included. -/
def pathMats : SceneNode → List Nat → List Mat
  | .mk _ t _, [] => [t.getTransformationMatrix]
  | .mk _ t cs, i :: p =>
    t.getTransformationMatrix ::
      (match cs[i]? with
       | some c => pathMats c p
       | none => [])

/-! WebGL enumeration constants, with their numeric values. -/

def TRIANGLES : Nat := 4
def UNSIGNED_BYTE : Nat := 5121
def FLOAT : Nat := 5126
def RGB : Nat := 6407
def TEXTURE_2D : Nat := 3553
def TEXTURE_MIN_FILTER : Nat := 10241
def TEXTURE_WRAP_S : Nat := 10242
def TEXTURE_WRAP_T : Nat := 10243
def LINEAR : Nat := 9729
def CLAMP_TO_EDGE : Nat := 33071
def TEXTURE0 : Nat := 33984
def ARRAY_BUFFER : Nat := 34962
def STATIC_DRAW : Nat := 35044

/-- Image element: only the dimensions are observable to the code. -/
structure Image where
  width : Nat
  height : Nat

/-- Modelled from the spec: the helper `isPowerOf2`, called by `setTexture`,
is not part of the two source files.  Per the spec's glossary a
power-of-two dimension is one that is "a power of two", i.e. equals `2 ^ k`
for some `k`. -/
def isPowerOf2 (n : Nat) : Bool :=
  (List.range (n + 1)).any (fun k => n == 2 ^ k)

/-- Handles and locations returned by the graphics context at construction
time (`getAttribLocation`, `getUniformLocation`, `createBuffer`,
`createTexture`, the compiled program).  Their concrete values are opaque
to the code; distinct numeric tags stand for them. -/
def progHandle : Nat := 100
def texHandle : Nat := 101
def locMvp : Nat := 0
def locMv : Nat := 1
def locNormalMV : Nat := 2
def locModelMatrix : Nat := 3
def locIsLightSource : Nat := 4
def locTex : Nat := 5
def attrPosition : Nat := 10
def attrNormal : Nat := 11
def attrTexCoord : Nat := 12
def bufPosition : Nat := 20
def bufNormal : Nat := 21
def bufTexCoord : Nat := 22

/-- One call into the graphics context, as issued by `MeshDrawer`. -/
inductive GLCall : Type where
  | useProgram (prog : Nat)
  | bindTexture (target tex : Nat)
  | texImage2D (target : Nat) (level : Nat) (internalFormat format typ : Nat) (img : Image)
  | generateMipmap (target : Nat)
  | texParameteri (target pname param : Nat)
  | activeTexture (unit : Nat)
  | uniform1i (loc : Nat) (v : Int)
  | uniformMatrix4fv (loc : Nat) (transpose : Bool) (m : Mat)
  | bindBuffer (target buffer : Nat)
  | bufferData (target : Nat) (data : List ℚ) (usage : Nat)
  | vertexAttribPointer (loc size typ : Nat) (normalized : Bool) (stride offset : Nat)
  | enableVertexAttribArray (loc : Nat)
  | drawArrays (mode : Nat) (first : Nat) (count : ℚ)

/-- Observable state of a `MeshDrawer`: JS division `vertPos.length / 3` is
exact rational division, so `numTriangles` is a rational. -/
structure MeshDrawer where
  numTriangles : ℚ
  isLightSource : Bool

/-- Constructor `new MeshDrawer(isLightSource = false)`: triangle count
starts at 0. -/
def MeshDrawer.new (isLightSource : Bool := false) : MeshDrawer :=
  { numTriangles := 0, isLightSource := isLightSource }

/-- Private helper `#bindAndBufferData(buffer, data)` (meshDrawer.js
lines 101-104). -/
def bindAndBufferData (buffer : Nat) (data : List ℚ) : List GLCall :=
  [.bindBuffer ARRAY_BUFFER buffer, .bufferData ARRAY_BUFFER data STATIC_DRAW]

/-- Private helper `#enableVertexAttrib(location, buffer, size)`
(meshDrawer.js lines 110-114). -/
def enableVertexAttrib (location buffer size : Nat) : List GLCall :=
  [.bindBuffer ARRAY_BUFFER buffer,
   .vertexAttribPointer location size FLOAT false 0 0,
   .enableVertexAttribArray location]

/-- Embedding of `MeshDrawer.setMesh(vertPos, texCoords, normals)`
(meshDrawer.js lines 45-51): uploads the three arrays and stores
`numTriangles = vertPos.length / 3`.  Returns the updated state and the
graphics-call trace. -/
def MeshDrawer.setMesh (self : MeshDrawer) (vertPos texCoords normals : List ℚ) :
    MeshDrawer × List GLCall :=
  ({ self with numTriangles := (vertPos.length : ℚ) / 3 },
   bindAndBufferData bufPosition vertPos
     ++ bindAndBufferData bufNormal normals
     ++ bindAndBufferData bufTexCoord texCoords)

/-- Embedding of `MeshDrawer.draw(matrixMVP, matrixMV, matrixNormal,
modelMatrix)` (meshDrawer.js lines 56-74) as its graphics-call trace. -/
def MeshDrawer.draw (self : MeshDrawer)
    (matrixMVP matrixMV matrixNormal modelMatrix : Mat) : List GLCall :=
  [.useProgram progHandle,
   .bindTexture TEXTURE_2D texHandle,
   .uniformMatrix4fv locMvp false matrixMVP,
   .uniformMatrix4fv locMv false matrixMV,
   .uniformMatrix4fv locNormalMV false matrixNormal,
   .uniformMatrix4fv locModelMatrix false modelMatrix,
   .uniform1i locIsLightSource (if self.isLightSource then 1 else 0)]
    ++ enableVertexAttrib attrPosition bufPosition 3
    ++ enableVertexAttrib attrNormal bufNormal 3
    ++ enableVertexAttrib attrTexCoord bufTexCoord 2
    ++ [.drawArrays TRIANGLES 0 self.numTriangles]

/-- Embedding of `MeshDrawer.setTexture(img)` (meshDrawer.js lines 79-95)
as its graphics-call trace. -/
def MeshDrawer.setTexture (_self : MeshDrawer) (img : Image) : List GLCall :=
  [.bindTexture TEXTURE_2D texHandle,
   .texImage2D TEXTURE_2D 0 RGB RGB UNSIGNED_BYTE img]
    ++ (if isPowerOf2 img.width && isPowerOf2 img.height then
          [.generateMipmap TEXTURE_2D]
        else
          [.texParameteri TEXTURE_2D TEXTURE_MIN_FILTER LINEAR,
           .texParameteri TEXTURE_2D TEXTURE_WRAP_S CLAMP_TO_EDGE,
           .texParameteri TEXTURE_2D TEXTURE_WRAP_T CLAMP_TO_EDGE])
    ++ [.useProgram progHandle,
        .activeTexture TEXTURE0,
        .bindTexture TEXTURE_2D texHandle,
        .uniform1i locTex 0]

/-! Arena model for the mutation performed by the `SceneNode` constructor
and `addChild`: nodes live in a world, identified by their index, and the
constructor's `parent?.addChild(this)` appends the fresh node's id to the
parent's `children` array. -/

/-- Mutable record of a scene node inside the arena. -/
structure NodeData where
  meshDrawer : Option Nat
  trs : TRS
  parent : Option Nat
  children : List Nat

/-- Arena of all constructed nodes; a node's id is its index. -/
structure World where
  nodes : List NodeData

/-- Append `c` to the `children` array of the node at index `p` (the body
of `addChild`, meshDrawer.js lines 260-262). -/
def addChildAt : List NodeData → Nat → Nat → List NodeData
  | [], _, _ => []
  | nd :: rest, 0, c => { nd with children := nd.children ++ [c] } :: rest
  | nd :: rest, p + 1, c => nd :: addChildAt rest p c

/-- Method `addChild(node)` on the node with id `p`. -/
def World.addChild (w : World) (p c : Nat) : World :=
  ⟨addChildAt w.nodes p c⟩

/-- Constructor `new SceneNode(meshDrawer, trs, parent = null)`
(meshDrawer.js lines 250-258): records the fields, starts with an empty
`children` array, and, when a parent is given, immediately calls
`parent.addChild(this)`.  Returns the new world and the fresh node's id. -/
def World.newSceneNode (w : World) (meshDrawer : Option Nat) (trs : TRS)
    (parent : Option Nat) : World × Nat :=
  let id := w.nodes.length
  let nd : NodeData := ⟨meshDrawer, trs, parent, []⟩
  let w1 : World := ⟨w.nodes ++ [nd]⟩
  match parent with
  | some p => (w1.addChild p id, id)
  | none => (w1, id)

/-- Children array of the node with id `i` (empty for an absent id). -/
def childrenOf (w : World) (i : Nat) : List Nat :=
  match w.nodes[i]? with
  | some nd => nd.children
  | none => []

/-- Worlds reachable by constructor calls alone, starting from the empty
arena; a supplied parent must be an already-constructed node, as in JS,
where the parent argument is a reference to an existing object. -/
inductive Built : World → Prop where
  | empty : Built ⟨[]⟩
  | step (w : World) (m : Option Nat) (t : TRS) (po : Option Nat) :
      Built w → (∀ p, po = some p → p < w.nodes.length) →
      Built (w.newSceneNode m t po).1

/-- Invariant: every id stored in a `children` array refers to a node of
the arena. -/
def ChildrenClosed (w : World) : Prop :=
  ∀ (i : Nat) (nd : NodeData), w.nodes[i]? = some nd →
    ∀ c ∈ nd.children, c < w.nodes.length

/-- Invariant: a node with a parent occurs exactly once in that parent's
`children` array. -/
def ParentRegistered (w : World) : Prop :=
  ∀ (i : Nat) (nd : NodeData), w.nodes[i]? = some nd → ∀ p, nd.parent = some p →
    (childrenOf w p).count i = 1

/-- Traversal-order property claimed for a draw implementation `d`: at every
node, the trace is the children's traces, in insertion order and with the
four matrices composed with the local transform on the right, followed by
the node's own mesh events. -/
def ChildrenFirst (d : SceneNode → Mat → Mat → Mat → Mat → List DrawEvent) : Prop :=
  ∀ md t cs M V N W,
    d (.mk md t cs) M V N W =
      (cs.map (fun c => d c (MatrixMult M t.getTransformationMatrix)
          (MatrixMult V t.getTransformationMatrix)
          (MatrixMult N t.getTransformationMatrix)
          (MatrixMult W t.getTransformationMatrix))).flatten
        ++ meshEvents md (MatrixMult M t.getTransformationMatrix)
            (MatrixMult V t.getTransformationMatrix)
            (MatrixMult N t.getTransformationMatrix)
            (MatrixMult W t.getTransformationMatrix)

/-- Dual traversal order: the node's own mesh events first, then the
children's traces in insertion order, with the same matrix composition. -/
def MeshFirst (d : SceneNode → Mat → Mat → Mat → Mat → List DrawEvent) : Prop :=
  ∀ md t cs M V N W,
    d (.mk md t cs) M V N W =
      meshEvents md (MatrixMult M t.getTransformationMatrix)
          (MatrixMult V t.getTransformationMatrix)
          (MatrixMult N t.getTransformationMatrix)
          (MatrixMult W t.getTransformationMatrix)
        ++ (cs.map (fun c => d c (MatrixMult M t.getTransformationMatrix)
            (MatrixMult V t.getTransformationMatrix)
            (MatrixMult N t.getTransformationMatrix)
            (MatrixMult W t.getTransformationMatrix))).flatten

/-- Concrete leaf node carrying mesh drawer 8 (used to instantiate proved
statements on a concrete scene). -/
def childNode : SceneNode := .mk (some 8) ⟨1⟩ []

/-- Concrete two-level tree: a root with mesh drawer 7 and one child. -/
def exTree : SceneNode := .mk (some 7) ⟨1⟩ [childNode]

/-- Concrete one-node arena. -/
def exWorld1 : World := ⟨[⟨none, ⟨1⟩, none, []⟩]⟩

/-- Arena after constructing one parentless node in the empty arena. -/
def exWorld0 : World := ((⟨[]⟩ : World).newSceneNode none ⟨1⟩ none).1

/-- Arena after additionally constructing a child of node 0. -/
def exWorld2 : World := (exWorld0.newSceneNode (some 0) ⟨1⟩ (some 0)).1

/-! Helper lemmas. -/

theorem getElem?_some_mem {α : Type} {l : List α} {i : Nat} {a : α}
    (h : l[i]? = some a) : a ∈ l := by
  obtain ⟨hlt, he⟩ := List.getElem?_eq_some.mp h
  exact he ▸ List.getElem_mem hlt

/-- Unfolding equation for `SceneNode.draw`, with the `attach` of the
termination argument eliminated. -/
theorem draw_node (md : Option Nat) (t : TRS) (cs : List SceneNode) (M V N W : Mat) :
    SceneNode.draw (.mk md t cs) M V N W =
      (cs.map (fun c => c.draw (MatrixMult M t.getTransformationMatrix)
          (MatrixMult V t.getTransformationMatrix)
          (MatrixMult N t.getTransformationMatrix)
          (MatrixMult W t.getTransformationMatrix))).flatten
        ++ meshEvents md (MatrixMult M t.getTransformationMatrix)
            (MatrixMult V t.getTransformationMatrix)
            (MatrixMult N t.getTransformationMatrix)
            (MatrixMult W t.getTransformationMatrix) := by
  rw [SceneNode.draw]
  rw [List.attach_map_coe cs (fun c => c.draw
    (MatrixMult M t.getTransformationMatrix)
    (MatrixMult V t.getTransformationMatrix)
    (MatrixMult N t.getTransformationMatrix)
    (MatrixMult W t.getTransformationMatrix))]

/-- Unfolding equation for `SceneNode.drawAlt`, with the `attach` of the
termination argument eliminated. -/
theorem drawAlt_node (md : Option Nat) (t : TRS) (cs : List SceneNode) (M V N W : Mat) :
    SceneNode.drawAlt (.mk md t cs) M V N W =
      meshEvents md (MatrixMult M t.getTransformationMatrix)
          (MatrixMult V t.getTransformationMatrix)
          (MatrixMult N t.getTransformationMatrix)
          (MatrixMult W t.getTransformationMatrix)
        ++ (cs.map (fun c => c.drawAlt (MatrixMult M t.getTransformationMatrix)
            (MatrixMult V t.getTransformationMatrix)
            (MatrixMult N t.getTransformationMatrix)
            (MatrixMult W t.getTransformationMatrix))).flatten := by
  rw [SceneNode.drawAlt]
  rw [List.attach_map_coe cs (fun c => c.drawAlt
    (MatrixMult M t.getTransformationMatrix)
    (MatrixMult V t.getTransformationMatrix)
    (MatrixMult N t.getTransformationMatrix)
    (MatrixMult W t.getTransformationMatrix))]

/-- Unfolding equation for `meshCount`. -/
theorem meshCount_node (md : Option Nat) (t : TRS) (cs : List SceneNode) :
    meshCount (.mk md t cs) =
      (cs.map meshCount).sum + (if md.isSome then 1 else 0) := by
  rw [meshCount]
  rw [List.attach_map_coe cs meshCount]

/-- Strong induction over the nested scene tree: to prove a property of all
nodes it suffices to prove it for a node assuming it for all its children. -/
theorem SceneNode.strongInd {motive : SceneNode → Prop}
    (h : ∀ md t cs, (∀ c ∈ cs, motive c) → motive (.mk md t cs)) :
    ∀ n, motive n
  | .mk md t cs => h md t cs (fun c hc => SceneNode.strongInd h c)
termination_by n => sizeOf n
decreasing_by
  have hm := List.sizeOf_lt_of_mem hc
  simp only [SceneNode.mk.sizeOf_spec]
  omega

/-- Composition lemma behind C2: if a path from `n` leads to a node whose
mesh drawer is `m`, then the traversal started at `n` with incoming
matrices `M, V, N, W` invokes `m` with each incoming matrix multiplied on
the right by the product of the local transforms along the path, and the
path through `d` levels contributes `d + 1` local transforms. -/
theorem draw_path_mem :
    ∀ (p : List Nat) (n target : SceneNode) (m : Nat) (M V N W : Mat),
      subtreeAt n p = some target → target.meshDrawer = some m →
      ((⟨m, MatrixMult M (pathMats n p).prod, MatrixMult V (pathMats n p).prod,
        MatrixMult N (pathMats n p).prod, MatrixMult W (pathMats n p).prod⟩ : DrawEvent)
          ∈ n.draw M V N W)
        ∧ (pathMats n p).length = p.length + 1 := by
  intro p
  induction p with
  | nil =>
    intro n target m M V N W h1 h2
    cases n with
    | mk md t cs =>
      simp only [subtreeAt, Option.some.injEq] at h1
      subst h1
      simp only [SceneNode.meshDrawer] at h2
      subst h2
      refine ⟨?_, by simp [pathMats]⟩
      rw [draw_node]
      apply List.mem_append_right
      simp [meshEvents, pathMats, List.prod_singleton]
  | cons i p ih =>
    intro n target m M V N W h1 h2
    cases n with
    | mk md t cs =>
      cases hc : cs[i]? with
      | none => simp [subtreeAt, hc] at h1
      | some c =>
        simp only [subtreeAt, hc] at h1
        obtain ⟨hm, hlen⟩ := ih c target m
          (MatrixMult M t.getTransformationMatrix)
          (MatrixMult V t.getTransformationMatrix)
          (MatrixMult N t.getTransformationMatrix)
          (MatrixMult W t.getTransformationMatrix) h1 h2
        constructor
        · rw [draw_node]
          apply List.mem_append_left
          apply List.mem_flatten.mpr
          refine ⟨c.draw (MatrixMult M t.getTransformationMatrix)
            (MatrixMult V t.getTransformationMatrix)
            (MatrixMult N t.getTransformationMatrix)
            (MatrixMult W t.getTransformationMatrix), ?_, ?_⟩
          · exact List.mem_map.mpr ⟨c, getElem?_some_mem hc, rfl⟩
          · have hpm : pathMats (.mk md t cs) (i :: p) =
                t.getTransformationMatrix :: pathMats c p := by
              simp [pathMats, hc]
            rw [hpm]
            simpa [MatrixMult, List.prod_cons, mul_assoc] using hm
        · simp [pathMats, hc, hlen]

/-- Flattening respects element-wise permutation of the mapped traces. -/
theorem flatten_map_perm {α β : Type} (l : List α) (f g : α → List β)
    (h : ∀ x ∈ l, (f x).Perm (g x)) :
    ((l.map f).flatten).Perm ((l.map g).flatten) := by
  induction l with
  | nil => simp
  | cons a l ih =>
    simp only [List.map_cons, List.flatten_cons]
    exact (h a (by simp)).append (ih (fun x hx => h x (by simp [hx])))

/-- Lookup after `addChildAt`: only the node at the targeted index changes,
and only by appending the new child id. -/
theorem addChildAt_getElem? (ns : List NodeData) (p c i : Nat) :
    (addChildAt ns p c)[i]? =
      if i = p then ns[i]?.map (fun nd => { nd with children := nd.children ++ [c] })
      else ns[i]? := by
  induction ns generalizing p i with
  | nil => simp [addChildAt]
  | cons nd rest ih =>
    cases p with
    | zero =>
      cases i with
      | zero => simp [addChildAt]
      | succ j => simp [addChildAt]
    | succ q =>
      cases i with
      | zero => simp [addChildAt]
      | succ j => simpa [addChildAt] using ih q j

/-- Length is preserved by `addChildAt`. -/
theorem addChildAt_length (ns : List NodeData) (p c : Nat) :
    (addChildAt ns p c).length = ns.length := by
  induction ns generalizing p with
  | nil => simp [addChildAt]
  | cons nd rest ih =>
    cases p with
    | zero => simp [addChildAt]
    | succ q => simp [addChildAt, ih q]

/-- Closed form of `childrenOf`. -/
theorem childrenOf_eq (ns : List NodeData) (i : Nat) :
    childrenOf ⟨ns⟩ i = (ns[i]?.map NodeData.children).getD [] := by
  cases h : ns[i]? <;> simp [childrenOf, h]

/-- Children lists of an absent id are empty. -/
theorem childrenOf_ge (ns : List NodeData) (q : Nat) (h : ns.length ≤ q) :
    childrenOf ⟨ns⟩ q = [] := by
  rw [childrenOf_eq, List.getElem?_eq_none h]
  rfl

/-- Children lists after an `addChildAt`. -/
theorem childrenOf_addChildAt (ns : List NodeData) (p c q : Nat) :
    childrenOf ⟨addChildAt ns p c⟩ q =
      if q = p ∧ p < ns.length then childrenOf ⟨ns⟩ q ++ [c]
      else childrenOf ⟨ns⟩ q := by
  rw [childrenOf_eq, childrenOf_eq, addChildAt_getElem?]
  by_cases hq : q = p
  · subst hq
    cases h : ns[q]? with
    | none =>
      have hge : ns.length ≤ q := by
        by_contra hlt
        rw [List.getElem?_eq_getElem (Nat.lt_of_not_le hlt)] at h
        exact Option.noConfusion h
      simp [h, Nat.not_lt_of_le hge]
    | some nd =>
      have hlt : q < ns.length := by
        by_contra hge
        rw [List.getElem?_eq_none (Nat.le_of_not_lt hge)] at h
        exact Option.noConfusion h
      simp [h, hlt]
  · simp [hq]

/-- Children lists after appending one fresh node. -/
theorem childrenOf_append_one (ns : List NodeData) (a : NodeData) (q : Nat) :
    childrenOf ⟨ns ++ [a]⟩ q =
      if q = ns.length then a.children else childrenOf ⟨ns⟩ q := by
  rw [childrenOf_eq, childrenOf_eq]
  by_cases h : q = ns.length
  · subst h
    simp [List.getElem?_concat_length]
  · rcases Nat.lt_or_ge q ns.length with hlt | hge
    · rw [List.getElem?_append_left hlt]
      simp [h]
    · have hge1 : ns.length + 1 ≤ q := Nat.lt_of_le_of_ne hge (fun he => h he.symm)
      rw [List.getElem?_eq_none (by simpa using hge1), List.getElem?_eq_none hge]
      simp [h]

/-- Parents recorded by the invariant point at real nodes. -/
theorem parent_lt_of_registered {w : World} {i p : Nat}
    (h : (childrenOf w p).count i = 1) : p < w.nodes.length := by
  by_contra hge
  rw [show w = ⟨w.nodes⟩ from rfl, childrenOf_ge w.nodes p (Nat.le_of_not_lt hge)] at h
  simp at h

/-- Construction preserves both arena invariants: children ids stay in
range and every parented node stays registered exactly once with its
parent. -/
theorem built_invariant : ∀ w, Built w → ChildrenClosed w ∧ ParentRegistered w := by
  intro w hb
  induction hb with
  | empty =>
    constructor
    · intro i nd h
      simp at h
    · intro i nd h
      simp at h
  | step w m t po hb hvalid ih =>
    obtain ⟨hcl, hpr⟩ := ih
    cases po with
    | none =>
      simp only [World.newSceneNode]
      constructor
      · intro i nd h c hcmem
        simp only [List.length_append, List.length_singleton]
        rcases Nat.lt_trichotomy i w.nodes.length with hlt | heq | hgt
        · rw [List.getElem?_append_left hlt] at h
          have := hcl i nd h c hcmem
          omega
        · subst heq
          rw [List.getElem?_concat_length] at h
          cases h
          simp at hcmem
        · rw [List.getElem?_eq_none (by simp; omega)] at h
          exact Option.noConfusion h
      · intro i nd h p hp
        rcases Nat.lt_trichotomy i w.nodes.length with hlt | heq | hgt
        · rw [List.getElem?_append_left hlt] at h
          have hold := hpr i nd h p hp
          have hplt : p < w.nodes.length := parent_lt_of_registered hold
          rw [show (⟨w.nodes ++ [⟨m, t, none, []⟩]⟩ : World) =
            ⟨w.nodes ++ [⟨m, t, none, []⟩]⟩ from rfl, childrenOf_append_one]
          simp only [show p ≠ w.nodes.length from by omega, if_false]
          exact hold
        · subst heq
          rw [List.getElem?_concat_length] at h
          cases h
          exact Option.noConfusion hp
        · rw [List.getElem?_eq_none (by simp; omega)] at h
          exact Option.noConfusion h
    | some p =>
      have hplen : p < w.nodes.length := hvalid p rfl
      simp only [World.newSceneNode, World.addChild]
      constructor
      · intro i nd h c hcmem
        rw [addChildAt_getElem?] at h
        have hlen2 : (addChildAt (w.nodes ++ [⟨m, t, some p, []⟩]) p
            w.nodes.length).length = w.nodes.length + 1 := by
          rw [addChildAt_length]; simp
        rw [hlen2]
        by_cases hip : i = p
        · subst hip
          rw [if_pos rfl, List.getElem?_append_left hplen] at h
          cases hnp : w.nodes[i]? with
          | none => rw [hnp] at h; exact Option.noConfusion h
          | some ndp =>
            rw [hnp] at h
            cases h
            rcases List.mem_append.mp hcmem with hin | hin
            · have := hcl i ndp hnp c hin
              omega
            · simp at hin
              omega
        · rw [if_neg hip] at h
          rcases Nat.lt_trichotomy i w.nodes.length with hlt | heq | hgt
          · rw [List.getElem?_append_left hlt] at h
            have := hcl i nd h c hcmem
            omega
          · subst heq
            rw [List.getElem?_concat_length] at h
            cases h
            simp at hcmem
          · rw [List.getElem?_eq_none (by simp; omega)] at h
            exact Option.noConfusion h
      · intro i nd h p' hp'
        rw [addChildAt_getElem?] at h
        have echw : ∀ q, childrenOf ⟨addChildAt (w.nodes ++ [⟨m, t, some p, []⟩]) p
            w.nodes.length⟩ q =
            if q = p then childrenOf ⟨w.nodes⟩ q ++ [w.nodes.length]
            else childrenOf ⟨w.nodes ++ [⟨m, t, some p, []⟩]⟩ q := by
          intro q
          rw [childrenOf_addChildAt]
          by_cases hq : q = p
          · subst hq
            rw [if_pos ⟨rfl, by simp; omega⟩, if_pos rfl, childrenOf_append_one]
            simp only [show q ≠ w.nodes.length from by omega, if_false]
          · rw [if_neg (by simp [hq]), if_neg hq]
        by_cases hip : i = p
        · rw [if_pos hip, hip, List.getElem?_append_left hplen] at h
          cases hnp : w.nodes[p]? with
          | none => rw [hnp] at h; exact Option.noConfusion h
          | some ndp =>
            rw [hnp] at h
            cases h
            simp only at hp'
            have hold := hpr p ndp hnp p' hp'
            have hplt : p' < w.nodes.length := parent_lt_of_registered hold
            rw [hip, echw p']
            by_cases hq : p' = p
            · rw [if_pos hq, List.count_append]
              have hc0 : List.count p [w.nodes.length] = 0 :=
                List.count_eq_zero.mpr (by intro hmem; simp at hmem; omega)
              rw [hc0]
              simpa using hold
            · rw [if_neg hq, childrenOf_append_one]
              simp only [show p' ≠ w.nodes.length from by omega, if_false]
              exact hold
        · rw [if_neg hip] at h
          rcases Nat.lt_trichotomy i w.nodes.length with hlt | heq | hgt
          · rw [List.getElem?_append_left hlt] at h
            have hold := hpr i nd h p' hp'
            have hplt : p' < w.nodes.length := parent_lt_of_registered hold
            rw [echw p']
            by_cases hq : p' = p
            · rw [if_pos hq, List.count_append]
              have hc0 : List.count i [w.nodes.length] = 0 :=
                List.count_eq_zero.mpr (by intro hmem; simp at hmem; omega)
              rw [hc0]
              simpa using hold
            · rw [if_neg hq, childrenOf_append_one]
              simp only [show p' ≠ w.nodes.length from by omega, if_false]
              exact hold
          · rw [heq, List.getElem?_concat_length] at h
            cases h
            simp only at hp'
            have hpp : p' = p := by
              exact (Option.some.injEq _ _ ▸ hp').symm
            rw [heq, hpp, echw p, if_pos rfl, List.count_append]
            have h0 : List.count w.nodes.length (childrenOf ⟨w.nodes⟩ p) = 0 := by
              apply List.count_eq_zero.mpr
              intro hmem
              rw [childrenOf_eq] at hmem
              cases hnp : w.nodes[p]? with
              | none => rw [hnp] at hmem; simp at hmem
              | some ndp =>
                rw [hnp] at hmem
                simp at hmem
                have := hcl p ndp hnp _ hmem
                omega
            rw [h0]
            simp
          · rw [List.getElem?_eq_none (by simp; omega)] at h
            exact Option.noConfusion h

/-! Claim theorems. -/

/-- C1: for every node with local transform `L = trs.getTransformationMatrix`
and incoming matrices `M` on the four channels (mvp, modelView,
normalMatrix, modelMatrix), the matrices handed to every child and to the
node's own mesh drawer are `MatrixMult M L` — the incoming matrix times the
local transform, local on the right — independently on each channel, in
both implementations of `draw`. -/
theorem C1_compose_local_on_right (md : Option Nat) (t : TRS) (cs : List SceneNode)
    (mvp modelView normalMatrix modelMatrix : Mat) :
    SceneNode.draw (.mk md t cs) mvp modelView normalMatrix modelMatrix =
      (cs.map (fun c => c.draw (MatrixMult mvp t.getTransformationMatrix)
          (MatrixMult modelView t.getTransformationMatrix)
          (MatrixMult normalMatrix t.getTransformationMatrix)
          (MatrixMult modelMatrix t.getTransformationMatrix))).flatten
        ++ meshEvents md (MatrixMult mvp t.getTransformationMatrix)
            (MatrixMult modelView t.getTransformationMatrix)
            (MatrixMult normalMatrix t.getTransformationMatrix)
            (MatrixMult modelMatrix t.getTransformationMatrix)
    ∧ SceneNode.drawAlt (.mk md t cs) mvp modelView normalMatrix modelMatrix =
      meshEvents md (MatrixMult mvp t.getTransformationMatrix)
          (MatrixMult modelView t.getTransformationMatrix)
          (MatrixMult normalMatrix t.getTransformationMatrix)
          (MatrixMult modelMatrix t.getTransformationMatrix)
        ++ (cs.map (fun c => c.drawAlt (MatrixMult mvp t.getTransformationMatrix)
            (MatrixMult modelView t.getTransformationMatrix)
            (MatrixMult normalMatrix t.getTransformationMatrix)
            (MatrixMult modelMatrix t.getTransformationMatrix))).flatten :=
  ⟨draw_node md t cs mvp modelView normalMatrix modelMatrix,
   drawAlt_node md t cs mvp modelView normalMatrix modelMatrix⟩

/-- C2: in any finite tree, when `draw` is called on the root with identity
matrices on all four channels, the mesh drawer of the node at the end of a
child-index path `p` (depth `d = p.length`) is invoked with the product of
the local transforms met along the path, root's transform leftmost, and
that path contributes exactly `d + 1` local transforms. -/
theorem C2_identity_root_product (n target : SceneNode) (p : List Nat) (m : Nat)
    (h1 : subtreeAt n p = some target) (h2 : target.meshDrawer = some m) :
    ((⟨m, (pathMats n p).prod, (pathMats n p).prod, (pathMats n p).prod,
        (pathMats n p).prod⟩ : DrawEvent) ∈ n.draw 1 1 1 1)
      ∧ (pathMats n p).length = p.length + 1 := by
  have h := draw_path_mem p n target m 1 1 1 1 h1 h2
  simpa [MatrixMult] using h

/-- Witness for C2 on a concrete two-level tree: the child's mesh drawer 8
at depth 1 receives the product of the two local transforms. -/
theorem C2_witness :
    ((⟨8, (pathMats exTree [0]).prod, (pathMats exTree [0]).prod,
        (pathMats exTree [0]).prod, (pathMats exTree [0]).prod⟩ : DrawEvent)
      ∈ exTree.draw 1 1 1 1)
      ∧ (pathMats exTree [0]).length = [0].length + 1 :=
  C2_identity_root_product exTree childNode [0] 8 rfl rfl

/-- C3 counterexample: the claim says every node's `draw` recurses into the
children first and draws the own mesh only afterwards, for both
implementations; the `part_000` implementation (`drawAlt`) violates this on
the concrete tree with root mesh 0 and a single child with mesh 1, whose
trace puts the root's own mesh event first. -/
theorem C3_counterexample :
    ¬ (ChildrenFirst SceneNode.draw ∧ ChildrenFirst SceneNode.drawAlt) := by
  rintro ⟨-, h⟩
  have he := h (some 0) ⟨1⟩ [.mk (some 1) ⟨1⟩ []] 1 1 1 1
  have h2 := congrArg (List.map DrawEvent.mesh) he
  rw [drawAlt_node] at h2
  simp [meshEvents, drawAlt_node] at h2

/-- C3 amended: the `meshDrawer.js` implementation of `SceneNode.draw`
recurses into every child with the four composed matrices, visiting
children in insertion order, and only afterwards, if the node owns a mesh
drawer, invokes its draw with the four composed matrices; the `part_000`
implementation invokes the own mesh drawer first and recurses into the
children, in insertion order, afterwards. -/
theorem C3_traversal_order :
    ChildrenFirst SceneNode.draw ∧ MeshFirst SceneNode.drawAlt :=
  ⟨fun md t cs M V N W => draw_node md t cs M V N W,
   fun md t cs M V N W => drawAlt_node md t cs M V N W⟩

/-- C4: drawing any finite tree terminates (the trace below is a total
function of the tree) and invokes the mesh drawer of each mesh-bearing node
exactly once — the trace length equals the number of mesh-bearing nodes,
each node contributing at most one own event — under both implementations;
a node with an empty children array ends the recursion, its trace being
just its own mesh events. -/
theorem C4_terminates_each_mesh_once :
    ∀ (n : SceneNode) (M V N W : Mat),
      (n.draw M V N W).length = meshCount n
      ∧ (n.drawAlt M V N W).length = meshCount n
      ∧ (∀ md t, SceneNode.draw (.mk md t []) M V N W =
          meshEvents md (MatrixMult M t.getTransformationMatrix)
            (MatrixMult V t.getTransformationMatrix)
            (MatrixMult N t.getTransformationMatrix)
            (MatrixMult W t.getTransformationMatrix)) := by
  have hlen : ∀ n : SceneNode, ∀ M V N W : Mat,
      (n.draw M V N W).length = meshCount n := by
    intro n
    induction n using SceneNode.strongInd with
    | _ md t cs ih =>
      intro M V N W
      rw [draw_node, meshCount_node, List.length_append, List.length_flatten]
      have h1 : (cs.map (fun c => c.draw (MatrixMult M t.getTransformationMatrix)
          (MatrixMult V t.getTransformationMatrix)
          (MatrixMult N t.getTransformationMatrix)
          (MatrixMult W t.getTransformationMatrix))).map List.length
            = cs.map meshCount := by
        rw [List.map_map]
        apply List.map_congr_left
        intro c hc
        exact ih c hc _ _ _ _
      rw [h1]
      congr 1
      cases md <;> simp [meshEvents]
  have hlenAlt : ∀ n : SceneNode, ∀ M V N W : Mat,
      (n.drawAlt M V N W).length = meshCount n := by
    intro n
    induction n using SceneNode.strongInd with
    | _ md t cs ih =>
      intro M V N W
      rw [drawAlt_node, meshCount_node, List.length_append, List.length_flatten]
      have h1 : (cs.map (fun c => c.drawAlt (MatrixMult M t.getTransformationMatrix)
          (MatrixMult V t.getTransformationMatrix)
          (MatrixMult N t.getTransformationMatrix)
          (MatrixMult W t.getTransformationMatrix))).map List.length
            = cs.map meshCount := by
        rw [List.map_map]
        apply List.map_congr_left
        intro c hc
        exact ih c hc _ _ _ _
      rw [h1]
      cases md <;> simp [meshEvents] <;> omega
  intro n M V N W
  refine ⟨hlen n M V N W, hlenAlt n M V N W, ?_⟩
  intro md t
  rw [draw_node]
  simp

/-- C5: `setMesh` stores `numTriangles = vertPos.length / 3` (exact JS
division); positions of length 9 give 3 and of length 0 give 0; the
constructor initializes the count to 0; and `draw` ends in a
triangle-list `drawArrays` call whose vertex count is exactly the stored
`numTriangles` — in particular 0 both after an empty `setMesh` and before
any `setMesh`. -/
theorem C5_triangle_count (self : MeshDrawer) (vp tc nm : List ℚ) (b : Bool)
    (M V N W : Mat) :
    ((self.setMesh vp tc nm).1).numTriangles = (vp.length : ℚ) / 3
    ∧ ((self.setMesh (List.replicate 9 0) tc nm).1).numTriangles = 3
    ∧ ((self.setMesh [] tc nm).1).numTriangles = 0
    ∧ (MeshDrawer.new b).numTriangles = 0
    ∧ (self.draw M V N W).getLast? =
        some (.drawArrays TRIANGLES 0 self.numTriangles)
    ∧ (((self.setMesh [] tc nm).1).draw M V N W).getLast? =
        some (.drawArrays TRIANGLES 0 0)
    ∧ ((MeshDrawer.new b).draw M V N W).getLast? =
        some (.drawArrays TRIANGLES 0 0) := by
  refine ⟨rfl, ?_, ?_, rfl, rfl, ?_, rfl⟩
  · show ((9 : Nat) : ℚ) / 3 = 3
    norm_num
  · show ((0 : Nat) : ℚ) / 3 = 0
    norm_num
  · show some (GLCall.drawArrays TRIANGLES 0 (((0 : Nat) : ℚ) / 3)) = _
    norm_num

/-- C6: `setTexture` generates a mipmap exactly when both image dimensions
are powers of two; otherwise — and only otherwise — it sets linear
minification filtering and clamp-to-edge wrapping on both the S and T
axes; in either case the call sequence ends by activating texture unit 0,
binding the texture there, and recording unit 0 in the sampler uniform. -/
theorem C6_setTexture_mipmap_or_fallback (self : MeshDrawer) (img : Image) :
    (GLCall.generateMipmap TEXTURE_2D ∈ self.setTexture img
      ↔ (isPowerOf2 img.width && isPowerOf2 img.height) = true)
    ∧ (GLCall.texParameteri TEXTURE_2D TEXTURE_MIN_FILTER LINEAR ∈ self.setTexture img
      ↔ ¬ (isPowerOf2 img.width && isPowerOf2 img.height) = true)
    ∧ (GLCall.texParameteri TEXTURE_2D TEXTURE_WRAP_S CLAMP_TO_EDGE ∈ self.setTexture img
      ↔ ¬ (isPowerOf2 img.width && isPowerOf2 img.height) = true)
    ∧ (GLCall.texParameteri TEXTURE_2D TEXTURE_WRAP_T CLAMP_TO_EDGE ∈ self.setTexture img
      ↔ ¬ (isPowerOf2 img.width && isPowerOf2 img.height) = true)
    ∧ (∃ pre, self.setTexture img = pre ++
        [.useProgram progHandle, .activeTexture TEXTURE0,
         .bindTexture TEXTURE_2D texHandle, .uniform1i locTex 0]) := by
  by_cases hc : (isPowerOf2 img.width && isPowerOf2 img.height) = true
  · refine ⟨?_, ?_, ?_, ?_, ?_⟩
    · simp [MeshDrawer.setTexture, hc]
    · simp [MeshDrawer.setTexture, hc,
        TEXTURE_2D, TEXTURE0, TEXTURE_MIN_FILTER, LINEAR, locTex, texHandle, progHandle]
    · simp [MeshDrawer.setTexture, hc,
        TEXTURE_2D, TEXTURE0, TEXTURE_WRAP_S, CLAMP_TO_EDGE, locTex, texHandle, progHandle]
    · simp [MeshDrawer.setTexture, hc,
        TEXTURE_2D, TEXTURE0, TEXTURE_WRAP_T, CLAMP_TO_EDGE, locTex, texHandle, progHandle]
    · exact ⟨[.bindTexture TEXTURE_2D texHandle,
        .texImage2D TEXTURE_2D 0 RGB RGB UNSIGNED_BYTE img,
        .generateMipmap TEXTURE_2D], by simp [MeshDrawer.setTexture, hc]⟩
  · refine ⟨?_, ?_, ?_, ?_, ?_⟩
    · simp [MeshDrawer.setTexture, hc,
        TEXTURE_2D, TEXTURE_MIN_FILTER, TEXTURE_WRAP_S, TEXTURE_WRAP_T,
        LINEAR, CLAMP_TO_EDGE, TEXTURE0, locTex, texHandle, progHandle]
    · simp [MeshDrawer.setTexture, hc,
        TEXTURE_2D, TEXTURE_MIN_FILTER, TEXTURE_WRAP_S, TEXTURE_WRAP_T,
        LINEAR, CLAMP_TO_EDGE, TEXTURE0, locTex, texHandle, progHandle]
    · simp [MeshDrawer.setTexture, hc,
        TEXTURE_2D, TEXTURE_MIN_FILTER, TEXTURE_WRAP_S, TEXTURE_WRAP_T,
        LINEAR, CLAMP_TO_EDGE, TEXTURE0, locTex, texHandle, progHandle]
    · simp [MeshDrawer.setTexture, hc,
        TEXTURE_2D, TEXTURE_MIN_FILTER, TEXTURE_WRAP_S, TEXTURE_WRAP_T,
        LINEAR, CLAMP_TO_EDGE, TEXTURE0, locTex, texHandle, progHandle]
    · exact ⟨[.bindTexture TEXTURE_2D texHandle,
        .texImage2D TEXTURE_2D 0 RGB RGB UNSIGNED_BYTE img,
        .texParameteri TEXTURE_2D TEXTURE_MIN_FILTER LINEAR,
        .texParameteri TEXTURE_2D TEXTURE_WRAP_S CLAMP_TO_EDGE,
        .texParameteri TEXTURE_2D TEXTURE_WRAP_T CLAMP_TO_EDGE],
        by simp [MeshDrawer.setTexture, hc]⟩

/-- C7: constructing a node with parent `p` leaves `p` with exactly the
same children list as constructing the node parentless and then calling
`addChild` on `p`; and (for an existing parent) both paths leave the new
node's id present in the parent's children list. -/
theorem C7_ctor_parent_equiv_addChild (w : World) (m : Option Nat) (t : TRS) (p : Nat) :
    childrenOf (w.newSceneNode m t (some p)).1 p =
      childrenOf (((w.newSceneNode m t none).1).addChild p
        (w.newSceneNode m t none).2) p
    ∧ (p < w.nodes.length →
        (w.newSceneNode m t (some p)).2 ∈
          childrenOf (w.newSceneNode m t (some p)).1 p) := by
  constructor
  · simp only [World.newSceneNode, World.addChild]
    rw [show (⟨addChildAt (w.nodes ++ [⟨m, t, some p, []⟩]) p w.nodes.length⟩ : World)
        = ⟨addChildAt (w.nodes ++ [⟨m, t, some p, []⟩]) p w.nodes.length⟩ from rfl,
      childrenOf_addChildAt, childrenOf_addChildAt]
    have e1 : childrenOf ⟨w.nodes ++ [⟨m, t, some p, []⟩]⟩ p
        = childrenOf ⟨w.nodes ++ [⟨m, t, none, []⟩]⟩ p := by
      rw [childrenOf_append_one, childrenOf_append_one]
    simp [e1]
  · intro hp
    simp only [World.newSceneNode, World.addChild]
    rw [childrenOf_addChildAt]
    rw [if_pos ⟨rfl, by simp; omega⟩]
    simp

/-- Witness for C7: in the concrete one-node arena, the new node's id ends
up in node 0's children list via the constructor-with-parent path. -/
theorem C7_witness :
    0 < exWorld1.nodes.length
    ∧ (exWorld1.newSceneNode none ⟨1⟩ (some 0)).2 ∈
        childrenOf (exWorld1.newSceneNode none ⟨1⟩ (some 0)).1 0 :=
  ⟨by simp [exWorld1],
   (C7_ctor_parent_equiv_addChild exWorld1 none ⟨1⟩ 0).2 (by simp [exWorld1])⟩

/-- C8: in every arena built only through the constructor (with or without
a parent argument, parents referring to already-constructed nodes), every
node with a non-null parent occurs exactly once in that parent's children
list; the registration happens at construction and no operation re-parents
or removes a node (construction is the only operation of `Built`). -/
theorem C8_parent_children_once (w : World) (hw : Built w) : ParentRegistered w :=
  (built_invariant w hw).2

/-- Witness for C8: the invariant holds of the concrete two-node arena in
which node 1 was constructed with node 0 as parent. -/
theorem C8_witness : ParentRegistered exWorld2 :=
  C8_parent_children_once exWorld2
    (Built.step exWorld0 (some 0) ⟨1⟩ (some 0)
      (Built.step ⟨[]⟩ none ⟨1⟩ none Built.empty
        (fun p hp => Option.noConfusion hp))
      (fun p hp => by cases hp; simp [exWorld0, World.newSceneNode]))

/-- C9: `draw` signals no error on any tree — it is a total function into
traces in this embedding; a node whose `meshDrawer` is null contributes no
own mesh event yet still recurses into all children with the same composed
matrices, and a node with no children ends the recursion with just its own
mesh events; both implementations agree on this. -/
theorem C9_optional_absence_is_not_an_error (md : Option Nat) (t : TRS)
    (cs : List SceneNode) (M V N W : Mat) :
    SceneNode.draw (.mk none t cs) M V N W =
      (cs.map (fun c => c.draw (MatrixMult M t.getTransformationMatrix)
          (MatrixMult V t.getTransformationMatrix)
          (MatrixMult N t.getTransformationMatrix)
          (MatrixMult W t.getTransformationMatrix))).flatten
    ∧ SceneNode.drawAlt (.mk none t cs) M V N W =
      (cs.map (fun c => c.drawAlt (MatrixMult M t.getTransformationMatrix)
          (MatrixMult V t.getTransformationMatrix)
          (MatrixMult N t.getTransformationMatrix)
          (MatrixMult W t.getTransformationMatrix))).flatten
    ∧ SceneNode.draw (.mk md t []) M V N W =
        meshEvents md (MatrixMult M t.getTransformationMatrix)
          (MatrixMult V t.getTransformationMatrix)
          (MatrixMult N t.getTransformationMatrix)
          (MatrixMult W t.getTransformationMatrix)
    ∧ SceneNode.drawAlt (.mk md t []) M V N W =
        meshEvents md (MatrixMult M t.getTransformationMatrix)
          (MatrixMult V t.getTransformationMatrix)
          (MatrixMult N t.getTransformationMatrix)
          (MatrixMult W t.getTransformationMatrix) := by
  refine ⟨?_, ?_, ?_, ?_⟩
  · rw [draw_node]
    simp [meshEvents]
  · rw [drawAlt_node]
    simp [meshEvents]
  · rw [draw_node]
    simp
  · rw [drawAlt_node]
    simp

/-- C10: the two `SceneNode.draw` implementations are equivalent up to
visitation order — for every tree and every four incoming matrices, the
traces are permutations of one another: the same mesh-drawer invocations
with the same four composed matrices, differing only in whether a node's
own mesh is drawn before or after its children. -/
theorem C10_draw_implementations_perm :
    ∀ (n : SceneNode) (M V N W : Mat),
      (n.draw M V N W).Perm (n.drawAlt M V N W) := by
  intro n
  induction n using SceneNode.strongInd with
  | _ md t cs ih =>
    intro M V N W
    rw [draw_node, drawAlt_node]
    refine List.Perm.trans List.perm_append_comm ?_
    exact List.Perm.append (List.Perm.refl _)
      (flatten_map_perm cs _ _ (fun c hc => ih c hc _ _ _ _))

end CS405
